import Mathlib

/-!
Verification of the quantitative analytics core of the Trading-APP repository.

The JavaScript source is shallowly embedded in Lean:
* closing prices and daily returns are exact rationals (`ℚ`);
* IEEE special values that JavaScript arithmetic can produce (`Infinity`,
  `-Infinity`, `NaN`) are modelled by the `JSNum` type, and the arithmetic
  operations the source applies to possibly-special values (`+`, `-`, `/`)
  are given their JavaScript semantics on that type;
* the `null` markers the indicator functions push for not-yet-computable
  entries are modelled by `Option`;
* `Math.sqrt` is modelled by `Real.sqrt`, and `Math.random()` draws are
  passed in explicitly as a randomness parameter.

Every `calculate…` definition below is a direct translation of the function
of the same name in `src/pages/api/stock.js` or in the React component file
(`calculatePortfolioMetrics`, `calculateCovarianceMatrix`,
`generateEfficientFrontier`, `findMaxSharpeRatio`, `runMonteCarloSimulation`).

The file is organised as: all definitions first, then all theorems.
-/

/-- A JavaScript number as the source's arithmetic can produce it, with the
IEEE special values made explicit: `num q` is the finite value `q`, `inf true`
is `Infinity`, `inf false` is `-Infinity`, `nan` is `NaN`.  (Rounding of
finite values is not modelled: finite arithmetic is exact.) -/
inductive JSNum where
  | num : ℚ → JSNum
  | inf : Bool → JSNum
  | nan : JSNum
deriving DecidableEq

namespace JSNum

/-- JavaScript unary minus. -/
def jneg : JSNum → JSNum
  | num a => num (-a)
  | inf s => inf (!s)
  | nan => nan

/-- JavaScript addition: `NaN` is absorbing, opposite infinities give `NaN`. -/
def jadd : JSNum → JSNum → JSNum
  | nan, _ => nan
  | _, nan => nan
  | num a, num b => num (a + b)
  | num _, inf s => inf s
  | inf s, num _ => inf s
  | inf s, inf t => if s = t then inf s else nan

/-- JavaScript subtraction. -/
def jsub (a b : JSNum) : JSNum := jadd a (jneg b)

/-- JavaScript division.  A nonzero finite value divided by (positive) zero is
a signed infinity, `0/0` is `NaN`, a finite value divided by an infinity is
`0`, and an infinity divided by an infinity is `NaN`. -/
def jdiv : JSNum → JSNum → JSNum
  | nan, _ => nan
  | _, nan => nan
  | num a, num b =>
      if b = 0 then (if a = 0 then nan else inf (decide (0 < a))) else num (a / b)
  | num _, inf _ => num 0
  | inf s, num b => if 0 ≤ b then inf s else inf (!s)
  | inf _, inf _ => nan

/-- Extract the rational of a finite `JSNum` (junk value `0` on `±Infinity`
and `NaN`). -/
def jsToQ : JSNum → ℚ
  | num a => a
  | inf _ => 0
  | nan => 0

end JSNum

/-- Embedding of `calculateSMA` (src/pages/api/stock.js, lines 67–78): for
each index `i` of the price list, push `null` while `i < period - 1`, else
push the mean of `prices.slice(i - period + 1, i + 1)`.  (`i + 1 < period`
is the ℕ-safe form of JavaScript's `i < period - 1`, equivalent for every
`period`, including `period = 0` where JavaScript compares with `-1`.) -/
def calculateSMA (prices : List ℚ) (period : ℕ) : List (Option ℚ) :=
  (List.range prices.length).map (fun i =>
    if i + 1 < period then none
    else some ((((prices.drop (i + 1 - period)).take period).sum) / (period : ℚ)))

/-- Embedding of `calculateDailyReturns` (src/pages/api/stock.js, lines
142–147): index `0` maps to `0`, index `i > 0` to
`(price[i] - price[i-1]) / price[i-1]` under JavaScript division (so a zero
prior price yields `±Infinity` or `NaN`, not an error). -/
def calculateDailyReturns (prices : List ℚ) : List JSNum :=
  (List.range prices.length).map (fun i =>
    if i = 0 then JSNum.num 0
    else JSNum.jdiv (JSNum.jsub (JSNum.num (prices.getD i 0)) (JSNum.num (prices.getD (i - 1) 0)))
                    (JSNum.num (prices.getD (i - 1) 0)))

/-- The tail of `calculateDailyReturns` in recursive form: the returns of the
days after a day that closed at `prev`.  (Proved equal to the embedding in
`calculateDailyReturns_cons`; used to state the reconstruction round-trip.) -/
def dailyReturnsFrom (prev : ℚ) : List ℚ → List JSNum
  | [] => []
  | p :: rest =>
      JSNum.jdiv (JSNum.jsub (JSNum.num p) (JSNum.num prev)) (JSNum.num prev) ::
        dailyReturnsFrom p rest

/-- Cumulative price reconstruction after a start price: each next price is
`prev * (1 + return)`. -/
def reconstructFrom (prev : ℚ) : List JSNum → List ℚ
  | [] => []
  | r :: rs => prev * (1 + JSNum.jsToQ r) :: reconstructFrom (prev * (1 + JSNum.jsToQ r)) rs

/-- Price reconstruction from a start price `s0` and a full return series
(whose index-0 entry carries no information): `p[0] = s0`,
`p[i] = p[i-1] * (1 + returns[i])`. -/
def reconstructPrices (s0 : ℚ) (rets : List JSNum) : List ℚ :=
  match rets with
  | [] => []
  | _ :: rs => s0 :: reconstructFrom s0 rs

/-- The per-day portfolio returns of `calculatePortfolioMetrics` (React
component file, lines 122–125): for each day row, `Σ_i row[i] * weights[i]`. -/
def pmDailyReturns (weights : List ℚ) (returns : List (List ℚ)) : List ℚ :=
  returns.map (fun dayReturns =>
    ∑ i in Finset.range dayReturns.length, dayReturns.getD i 0 * weights.getD i 0)

/-- `meanReturn` of `calculatePortfolioMetrics` (line 127). -/
def pmMeanReturn (weights : List ℚ) (returns : List (List ℚ)) : ℚ :=
  (pmDailyReturns weights returns).sum / ((pmDailyReturns weights returns).length : ℚ)

/-- `variance` of `calculatePortfolioMetrics` (line 128): population variance,
denominator `N`. -/
def pmVariance (weights : List ℚ) (returns : List (List ℚ)) : ℚ :=
  ((pmDailyReturns weights returns).map
      (fun r => (r - pmMeanReturn weights returns) ^ 2)).sum /
    ((pmDailyReturns weights returns).length : ℚ)

/-- `volatility` of `calculatePortfolioMetrics` (line 129):
`Math.sqrt(variance * 252)`. -/
noncomputable def pmVolatility (weights : List ℚ) (returns : List (List ℚ)) : ℝ :=
  Real.sqrt ((pmVariance weights returns : ℝ) * 252)

/-- `annualizedReturn` of `calculatePortfolioMetrics` (line 130). -/
def pmAnnualizedReturn (weights : List ℚ) (returns : List (List ℚ)) : ℚ :=
  pmMeanReturn weights returns * 252

/-- The record `calculatePortfolioMetrics` returns.  The JS field `return` is
named `annualizedReturn` here (`return` is reserved in Lean) and the JS field
`sharpeRatio` is named `sharpe`. -/
structure PortfolioMetrics where
  annualizedReturn : ℚ
  volatility : ℝ
  sharpe : ℝ

open Classical

/-- Embedding of `calculatePortfolioMetrics` (React component file, lines
122–137), with the explicit guard `volatility !== 0 ? ann / vol : 0`. -/
noncomputable def calculatePortfolioMetrics (weights : List ℚ) (returns : List (List ℚ)) :
    PortfolioMetrics :=
  { annualizedReturn := pmAnnualizedReturn weights returns
    volatility := pmVolatility weights returns
    sharpe :=
      if pmVolatility weights returns ≠ 0 then
        (pmAnnualizedReturn weights returns : ℝ) / pmVolatility weights returns
      else 0 }

/-- The day-over-day price differences `price[i] - price[i-1]` of
`calculateRSI` (src/pages/api/stock.js, line 86), indexed from `0` (entry `k`
is the difference at day `k + 1`). -/
def priceDiffs (prices : List ℚ) : List ℚ :=
  (List.range (prices.length - 1)).map (fun k => prices.getD (k + 1) 0 - prices.getD k 0)

/-- The `gains` array of `calculateRSI` (line 87): `Math.max(difference, 0)`. -/
def gainsOf (prices : List ℚ) : List ℚ := (priceDiffs prices).map (fun d => max d 0)

/-- The `losses` array of `calculateRSI` (line 88): `Math.max(-difference, 0)`. -/
def lossesOf (prices : List ℚ) : List ℚ := (priceDiffs prices).map (fun d => max (-d) 0)

/-- The value `100 - 100 / (1 + avgGain / avgLoss)` pushed by `calculateRSI`
(lines 98–99), under JavaScript arithmetic: `avgLoss = 0` with `avgGain > 0`
gives `RS = Infinity` and the value `100`; `avgGain = avgLoss = 0` gives
`RS = NaN` and the value `NaN`. -/
def rsiValue (avgGain avgLoss : ℚ) : JSNum :=
  JSNum.jsub (JSNum.num 100)
    (JSNum.jdiv (JSNum.num 100)
      (JSNum.jadd (JSNum.num 1) (JSNum.jdiv (JSNum.num avgGain) (JSNum.num avgLoss))))

/-- Embedding of `calculateRSI` (src/pages/api/stock.js, lines 80–103): the
output has one entry per day-over-day difference (length `len(prices) - 1`,
entry `k` belonging to loop index `i = k + 1`); `null` while `i < period`,
else the value from the simple means of the trailing `period` gains and
losses (`gains.slice(i - period, i)`). -/
def calculateRSI (prices : List ℚ) (period : ℕ) : List (Option JSNum) :=
  (List.range (prices.length - 1)).map (fun k =>
    if k + 1 < period then none
    else some (rsiValue
      ((((gainsOf prices).drop (k + 1 - period)).take period).sum / (period : ℚ))
      ((((lossesOf prices).drop (k + 1 - period)).take period).sum / (period : ℚ))))

/-- Decidable "is a finite value in `[0, 100]`" test used to state the RSI
range claim (`Infinity`, `-Infinity` and `NaN` are not in range). -/
def rsiInRange : JSNum → Bool
  | JSNum.num q => decide (0 ≤ q ∧ q ≤ 100)
  | JSNum.inf _ => false
  | JSNum.nan => false

/-- Embedding of `calculateEMA` (src/pages/api/stock.js, lines 122–140) for
`period ≥ 1`: `null` while `i < period - 1`, the SMA of the first `period`
prices at `i = period - 1`, then the left-to-right recurrence
`(price[i] - ema[i-1]) * (2 / (period + 1)) + ema[i-1]`. -/
def calculateEMA (prices : List ℚ) (period : ℕ) : List (Option ℚ) :=
  if prices.length < period then List.replicate prices.length none
  else
    List.replicate (period - 1) none ++
      (List.scanl (fun prev price => (price - prev) * (2 / ((period : ℚ) + 1)) + prev)
        ((prices.take period).sum / (period : ℚ)) (prices.drop period)).map some

/-- Embedding of `calculateMACD` (src/pages/api/stock.js, lines 105–120).
The macd line maps `(fast, i) => !fast || !ema26[i] ? null : fast - ema26[i]`
over the fast EMA: JavaScript's `!x` is true for `null` and also for `0`, so
an entry is `null` whenever either EMA value is undefined **or equal to 0**.
The signal line is the 9-period EMA of the macd line with `null`s removed
(`macdLine.filter(x => x !== null)`). -/
def calculateMACD (prices : List ℚ) : List (Option ℚ) × List (Option ℚ) :=
  let macdLine := List.zipWith (fun fast slow =>
    match fast, slow with
    | some a, some b => if a = 0 ∨ b = 0 then none else some (a - b)
    | _, _ => none) (calculateEMA prices 12) (calculateEMA prices 26)
  (macdLine, calculateEMA (macdLine.filterMap id) 9)

/-- Entry `(k, j)` of a days-by-assets matrix, with out-of-range defaulting
(claims always carry in-range hypotheses). -/
def matGet (R : List (List ℚ)) (k j : ℕ) : ℚ := (R.getD k []).getD j 0

/-- `meanReturns[j]` of `calculateCovarianceMatrix` (React component file,
lines 146–154): the arithmetic mean of column `j`. -/
def colMean (R : List (List ℚ)) (j : ℕ) : ℚ :=
  (∑ k in Finset.range R.length, matGet R k j) / (R.length : ℚ)

/-- `sumProduct` of `calculateCovarianceMatrix` (lines 159–162). -/
def covSumProduct (R : List (List ℚ)) (i j : ℕ) : ℚ :=
  ∑ k in Finset.range R.length, (matGet R k i - colMean R i) * (matGet R k j - colMean R j)

/-- Embedding of `calculateCovarianceMatrix` (React component file, lines
140–167): the empty guard returns `[]`, otherwise entry `(i, j)` is
`sumProduct / (numDays - 1)` under JavaScript division — for `numDays = 1`
that is `0 / 0 = NaN`, not an error. -/
def calculateCovarianceMatrix (returnsData : List (List ℚ)) : List (List JSNum) :=
  if returnsData.length = 0 ∨ (returnsData.getD 0 []).length = 0 then []
  else
    (List.range (returnsData.getD 0 []).length).map (fun i =>
      (List.range (returnsData.getD 0 []).length).map (fun j =>
        JSNum.jdiv (JSNum.num (covSumProduct returnsData i j))
          (JSNum.num ((returnsData.length : ℚ) - 1))))

/-- The covariance matrix with its entries read back as rationals (exact
whenever `numDays ≥ 2`, in which case every entry is finite; the junk value
`0` stands in for the `NaN` entries of the degenerate `numDays = 1` case). -/
def covToQ (R : List (List ℚ)) : List (List ℚ) :=
  (calculateCovarianceMatrix R).map (fun row => row.map JSNum.jsToQ)

/-- The weight normalisation shared by `generateEfficientFrontier` (React
component file, lines 182–184) and `runMonteCarloSimulation` (lines 224–226):
divide each uniform draw by the sum of the draws. -/
def normalizeWeights (draws : List ℚ) : List ℚ := draws.map (fun w => w / draws.sum)

/-- A point of the efficient frontier (`{risk, return, sharpeRatio, weights}`
in the source; `return` and `sharpeRatio` are named `annualizedReturn` and
`sharpe` here). -/
structure FrontierPoint where
  risk : ℝ
  annualizedReturn : ℚ
  sharpe : ℝ
  weights : List ℚ

/-- One step of the `reduce` in `findMaxSharpeRatio` (React component file,
lines 201–203): keep the new point only on strictly greater `sharpeRatio`. -/
noncomputable def maxSharpeStep (mx point : FrontierPoint) : FrontierPoint :=
  if point.sharpe > mx.sharpe then point else mx

/-- Embedding of `findMaxSharpeRatio` (React component file, lines 199–204):
`null` on the empty collection, else a `reduce` seeded with the first point. -/
noncomputable def findMaxSharpeRatio (frontierPoints : List FrontierPoint) :
    Option FrontierPoint :=
  match frontierPoints with
  | [] => none
  | p0 :: _ => some (frontierPoints.foldl maxSharpeStep p0)

/-- Embedding of `generateEfficientFrontier` (React component file, lines
170–196).  `selectedStocks` carries each stock's daily-return series;
`rand t` is the list of `Math.random()` draws of trial `t`.  An empty
selection returns `[]` before any randomness is consumed; otherwise 50
normalised weight vectors are scored over the first 252 days and the points
are sorted ascending by risk. -/
noncomputable def generateEfficientFrontier (selectedStocks : List (List ℚ))
    (rand : ℕ → List ℚ) : List FrontierPoint :=
  if selectedStocks.length = 0 then []
  else
    let returns := (List.range 252).map (fun i => selectedStocks.map (fun s => s.getD i 0))
    ((List.range 50).map (fun t =>
      let weights := normalizeWeights (rand t)
      let metrics := calculatePortfolioMetrics weights returns
      { risk := metrics.volatility, annualizedReturn := metrics.annualizedReturn,
        sharpe := metrics.sharpe, weights := weights : FrontierPoint })).mergeSort
      (fun a b => decide (a.risk ≤ b.risk))

/-- `meanDailyReturns` of `runMonteCarloSimulation` (React component file,
lines 219–221): per-stock arithmetic mean of the daily returns. -/
def mcMeanDailyReturns (selectedStocks : List (List ℚ)) : List ℚ :=
  selectedStocks.map (fun s => s.sum / (s.length : ℚ))

/-- `portfolioExpectedAnnualReturn` of one Monte Carlo trial (lines 228–231):
`Σ_j weights[j] * meanDailyReturns[j] * 252`. -/
def mcTrialReturn (weights means : List ℚ) : ℚ :=
  ∑ j in Finset.range weights.length, weights.getD j 0 * means.getD j 0 * 252

/-- `portfolioVariance` of one Monte Carlo trial (lines 233–238): the full
quadratic form `Σ_r Σ_c weights[r] * weights[c] * covMatrix[r][c]`. -/
def mcTrialVariance (weights : List ℚ) (cov : List (List ℚ)) : ℚ :=
  ∑ r in Finset.range weights.length, ∑ c in Finset.range weights.length,
    weights.getD r 0 * weights.getD c 0 * matGet cov r c

/-- One `{return, volatility}` sample of the Monte Carlo cloud. -/
structure MonteCarloSample where
  annualizedReturn : ℚ
  volatility : ℝ

/-- Embedding of `runMonteCarloSimulation` (React component file, lines
207–248): `null` when no stocks are selected; otherwise the covariance matrix
of the transposed (day-major) return matrix is precomputed and each trial
normalises `K` fresh draws and emits one sample.  (Covariance entries are
read back as rationals via `covToQ`, exact for `numDays ≥ 2`.) -/
noncomputable def runMonteCarloSimulation (selectedStocks : List (List ℚ))
    (rand : ℕ → List ℚ) (numSimulations : ℕ) : Option (List MonteCarloSample) :=
  if selectedStocks.length = 0 then none
  else
    let transposedReturns := (List.range ((selectedStocks.getD 0 []).length)).map
      (fun c => selectedStocks.map (fun row => row.getD c 0))
    let covMatrix := covToQ transposedReturns
    let means := mcMeanDailyReturns selectedStocks
    some ((List.range numSimulations).map (fun t =>
      let weights := normalizeWeights (rand t)
      { annualizedReturn := mcTrialReturn weights means,
        volatility := Real.sqrt ((mcTrialVariance weights covMatrix : ℝ) * 252) }))

section ListHelpers

variable {α β : Type*}

/-- Indexing into a `List.range`-map, the shape of every JavaScript
index-loop embedding below. -/
theorem getD_range_map (f : ℕ → α) (n i : ℕ) (d : α) :
    ((List.range n).map f).getD i d = if i < n then f i else d := by
  by_cases h : i < n
  · rw [List.getD_eq_getElem?_getD, List.getElem?_map, List.getElem?_range h]
    simp [h]
  · rw [List.getD_eq_getElem?_getD, List.getElem?_map]
    rw [List.getElem?_eq_none (by simpa using Nat.le_of_not_lt h)]
    simp [h]

/-- `getD` after a `drop` re-indexes. -/
theorem getD_drop (l : List α) (a k : ℕ) (d : α) :
    (l.drop a).getD k d = l.getD (a + k) d := by
  induction l generalizing a with
  | nil => simp [List.getD]
  | cons x xs ih =>
    cases a with
    | zero => simp
    | succ a' =>
      rw [List.drop_succ_cons, Nat.succ_add, List.getD_cons_succ]
      exact ih a'

/-- The sum of a prefix of a rational list, as an indexed sum. -/
theorem take_sum_eq (l : List ℚ) (b : ℕ) (hb : b ≤ l.length) :
    (l.take b).sum = ∑ k in Finset.range b, l.getD k 0 := by
  induction l generalizing b with
  | nil => simp at hb; simp [hb]
  | cons x xs ih =>
    cases b with
    | zero => simp
    | succ b' =>
      rw [List.take_succ_cons, List.sum_cons, Finset.sum_range_succ']
      simp only [List.getD_cons_succ, List.getD_cons_zero]
      rw [ih b' (by simpa using hb)]
      ring

/-- `getD` through a pointwise map that fixes the default `0`. -/
theorem getD_map_zero (l : List ℚ) (f : ℚ → ℚ) (hf : f 0 = 0) (i : ℕ) :
    (l.map f).getD i 0 = f (l.getD i 0) := by
  by_cases h : i < l.length
  · rw [List.getD_eq_getElem?_getD, List.getElem?_map]
    rw [List.getElem?_eq_getElem h]
    simp [List.getD_eq_getElem?_getD, List.getElem?_eq_getElem h]
  · have h' : l.length ≤ i := Nat.le_of_not_lt h
    rw [List.getD_eq_getElem?_getD, List.getElem?_map, List.getElem?_eq_none h']
    rw [List.getD_eq_getElem?_getD, List.getElem?_eq_none h']
    simp [hf]

/-- `getD` on a `replicate`. -/
theorem getD_replicate (n : ℕ) (a : α) (i : ℕ) (d : α) :
    (List.replicate n a).getD i d = if i < n then a else d := by
  by_cases h : i < n
  · rw [List.getD_eq_getElem?_getD, List.getElem?_replicate]
    simp [h]
  · rw [List.getD_eq_getElem?_getD, List.getElem?_replicate]
    simp [h]

end ListHelpers

/-- **C1.**  For every period `P ≥ 1` and price series `S` with `len S ≥ P`,
`calculateSMA S P` has the same length as `S`, its first `P - 1` entries are
the undefined marker, and its entry at every index `i ≥ P - 1` is the
arithmetic mean of `S[i-P+1..i]`. -/
theorem calculateSMA_spec (S : List ℚ) (P : ℕ) (hP : 1 ≤ P) (hPS : P ≤ S.length) :
    (calculateSMA S P).length = S.length ∧
    (∀ i, i + 1 < P → (calculateSMA S P).getD i (some 0) = none) ∧
    (∀ i, P ≤ i + 1 → i < S.length →
      (calculateSMA S P).getD i none =
        some ((∑ k in Finset.Icc (i + 1 - P) i, S.getD k 0) / (P : ℚ))) := by
  refine ⟨by simp [calculateSMA], ?_, ?_⟩
  · intro i hi
    rw [calculateSMA, getD_range_map]
    have hin : i < S.length := by omega
    simp [hin, hi]
  · intro i hPi hiS
    rw [calculateSMA, getD_range_map]
    have hnot : ¬ i + 1 < P := by omega
    simp only [hiS, if_true, hnot, if_false]
    congr 1
    have hlen : P ≤ (S.drop (i + 1 - P)).length := by
      rw [List.length_drop]; omega
    rw [take_sum_eq _ _ hlen]
    have hIcc : ∑ k in Finset.Icc (i + 1 - P) i, S.getD k 0 =
        ∑ k in Finset.range (i + 1 - (i + 1 - P)), S.getD ((i + 1 - P) + k) 0 := by
      rw [← Nat.Ico_succ_right, Finset.sum_Ico_eq_sum_range]
    rw [hIcc]
    have hPeq : i + 1 - (i + 1 - P) = P := by omega
    rw [hPeq]
    rw [Finset.sum_congr rfl (fun k _ => getD_drop S (i + 1 - P) k 0)]

/-- Witness for C1 at the spec's own scenario: `S = [100,102,101,105,110]`,
`P = 5`, where the single defined entry is `103.6`. -/
theorem calculateSMA_spec_witness :
    (calculateSMA [100, 102, 101, 105, 110] 5).getD 4 none = some (518 / 5) ∧
    (calculateSMA [100, 102, 101, 105, 110] 5).getD 0 (some 0) = none := by
  have h := calculateSMA_spec [100, 102, 101, 105, 110] 5 (by decide) (by decide)
  refine ⟨?_, h.2.1 0 (by decide)⟩
  rw [h.2.2 4 (by decide) (by decide)]
  norm_num [Finset.sum_Icc_succ_top, List.getD]

theorem jsub_num (a b : ℚ) : JSNum.jsub (JSNum.num a) (JSNum.num b) = JSNum.num (a - b) := by
  simp [JSNum.jsub, JSNum.jadd, JSNum.jneg, sub_eq_add_neg]

theorem jdiv_num (a b : ℚ) (hb : b ≠ 0) :
    JSNum.jdiv (JSNum.num a) (JSNum.num b) = JSNum.num (a / b) := by
  simp [JSNum.jdiv, hb]

/-- The index-loop form of the daily-returns tail agrees with its recursive
form. -/
theorem dailyReturns_range_aux (l : List ℚ) (a : ℚ) :
    (List.range l.length).map (fun i =>
        JSNum.jdiv (JSNum.jsub (JSNum.num (l.getD i 0)) (JSNum.num ((a :: l).getD i 0)))
          (JSNum.num ((a :: l).getD i 0)))
      = dailyReturnsFrom a l := by
  induction l generalizing a with
  | nil => rfl
  | cons b t ih =>
    rw [dailyReturnsFrom]
    rw [List.length_cons, List.range_succ_eq_map, List.map_cons, List.map_map]
    congr 1
    simp only [Function.comp_def, List.getD_cons_succ]
    exact ih b

theorem calculateDailyReturns_cons (a : ℚ) (l : List ℚ) :
    calculateDailyReturns (a :: l) = JSNum.num 0 :: dailyReturnsFrom a l := by
  rw [calculateDailyReturns, List.length_cons, List.range_succ_eq_map, List.map_cons,
    List.map_map]
  congr 1
  simp only [Function.comp_def, Nat.succ_ne_zero, if_false, Nat.succ_sub_one,
    List.getD_cons_succ]
  exact dailyReturns_range_aux l a

/-- Reconstruction undoes the recursive daily-returns when no price is zero. -/
theorem reconstructFrom_returns (l : List ℚ) (prev : ℚ) (hprev : prev ≠ 0)
    (hl : ∀ p ∈ l, p ≠ 0) :
    reconstructFrom prev (dailyReturnsFrom prev l) = l := by
  induction l generalizing prev with
  | nil => rfl
  | cons p rest ih =>
    have hp : p ≠ 0 := hl p (by simp)
    have hstep : prev * (1 + JSNum.jsToQ
        (JSNum.jdiv (JSNum.jsub (JSNum.num p) (JSNum.num prev)) (JSNum.num prev))) = p := by
      rw [jsub_num, jdiv_num _ _ hprev]
      show prev * (1 + (p - prev) / prev) = p
      field_simp
    rw [dailyReturnsFrom, reconstructFrom, hstep]
    exact congrArg _ (ih p hp (fun q hq => hl q (List.mem_cons_of_mem _ hq)))

/-- **C7.**  `calculateDailyReturns S` starts with `0` for every nonempty `S`,
and for every `S` whose prices are all nonzero, cumulative reconstruction
`p[i] = p[i-1] * (1 + returns[i])` from `S[0]` reproduces `S` exactly. -/
theorem calculateDailyReturns_roundtrip (S : List ℚ) :
    (S ≠ [] → (calculateDailyReturns S).getD 0 JSNum.nan = JSNum.num 0) ∧
    ((∀ p ∈ S, p ≠ 0) → reconstructPrices (S.headD 0) (calculateDailyReturns S) = S) := by
  constructor
  · intro hne
    match S with
    | [] => exact absurd rfl hne
    | a :: l => rw [calculateDailyReturns_cons]; rfl
  · intro hnz
    match S with
    | [] => rfl
    | a :: l =>
      have ha : a ≠ 0 := hnz a (by simp)
      rw [calculateDailyReturns_cons]
      show a :: reconstructFrom a (dailyReturnsFrom a l) = a :: l
      rw [reconstructFrom_returns l a ha (fun p hp => hnz p (List.mem_cons_of_mem _ hp))]

/-- Witness for C7 at `S = [2, 3]`. -/
theorem calculateDailyReturns_roundtrip_witness :
    (calculateDailyReturns [2, 3]).getD 0 JSNum.nan = JSNum.num 0 ∧
    reconstructPrices 2 (calculateDailyReturns [2, 3]) = [2, 3] := by
  have h := calculateDailyReturns_roundtrip [2, 3]
  refine ⟨h.1 (by simp), ?_⟩
  have h2 := h.2 (by decide)
  simpa using h2

/-- **C5, counterexample.**  A zero prior-day price does not make
`calculateDailyReturns` fail: at `[0, 1]` it silently returns `Infinity` for
day 1 (there is no `DegenerateInputError` anywhere in the code). -/
theorem dailyReturns_error_counterexample :
    calculateDailyReturns [0, 1] = [JSNum.num 0, JSNum.inf true] := by
  simp [calculateDailyReturns, List.range_succ, JSNum.jsub, JSNum.jadd, JSNum.jneg, JSNum.jdiv]

/-- **C5, amended.**  `calculateDailyReturns` never raises: when the prior
price is `0` the entry is `Infinity`, `-Infinity` or `NaN` according to the
sign of the numerator; and zero-volatility Sharpe computation is guarded:
whenever `volatility = 0`, `calculatePortfolioMetrics` returns
`sharpeRatio = 0`. -/
theorem dailyReturns_error_amended (S : List ℚ) (i : ℕ) (w : List ℚ) (R : List (List ℚ))
    (h1 : 1 ≤ i) (h2 : i < S.length) (hz : S.getD (i - 1) 0 = 0) :
    ((calculateDailyReturns S).getD i JSNum.nan =
      if S.getD i 0 = 0 then JSNum.nan else JSNum.inf (decide (0 < S.getD i 0))) ∧
    (pmVolatility w R = 0 → (calculatePortfolioMetrics w R).sharpe = 0) := by
  constructor
  · rw [calculateDailyReturns, getD_range_map]
    simp only [h2, if_true]
    have hine : ¬ i = 0 := by omega
    simp only [hine, if_false, hz]
    rw [jsub_num]
    by_cases hSi : S.getD i 0 = 0
    · simp [hSi, JSNum.jdiv]
    · simp [hSi, JSNum.jdiv, sub_zero]
  · intro hvol
    simp [calculatePortfolioMetrics, hvol]

/-- Witness for C5 at `S = [0, 1]`, `w = [1]`, `R = [[0], [0]]`. -/
theorem dailyReturns_error_amended_witness :
    (calculateDailyReturns [0, 1]).getD 1 JSNum.nan = JSNum.inf true ∧
    (calculatePortfolioMetrics [1] [[0], [0]]).sharpe = 0 := by
  have h := dailyReturns_error_amended [0, 1] 1 [1] [[0], [0]] (by decide) (by decide)
    (by decide)
  constructor
  · rw [h.1]; decide
  · apply h.2
    have hv : pmVariance [1] [[0], [0]] = 0 := by
      simp [pmVariance, pmMeanReturn, pmDailyReturns]
    rw [pmVolatility, hv]
    norm_num

theorem jadd_num (a b : ℚ) : JSNum.jadd (JSNum.num a) (JSNum.num b) = JSNum.num (a + b) := rfl

theorem priceDiffs_getD (S : List ℚ) (j : ℕ) :
    (priceDiffs S).getD j 0 =
      if j < S.length - 1 then S.getD (j + 1) 0 - S.getD j 0 else 0 := by
  rw [priceDiffs, getD_range_map]

theorem gainsOf_getD (S : List ℚ) (j : ℕ) :
    (gainsOf S).getD j 0 = max ((priceDiffs S).getD j 0) 0 :=
  getD_map_zero _ _ (by norm_num) j

theorem lossesOf_getD (S : List ℚ) (j : ℕ) :
    (lossesOf S).getD j 0 = max (-((priceDiffs S).getD j 0)) 0 :=
  getD_map_zero _ _ (by norm_num) j

/-- The entry of `calculateRSI` at output index `k` (loop index `i = k + 1`),
with the trailing windows written as indexed sums. -/
theorem calculateRSI_getD (S : List ℚ) (k : ℕ) :
    (calculateRSI S 14).getD k none =
      if k < S.length - 1 then
        (if k + 1 < 14 then none
         else some (rsiValue
            ((∑ j in Finset.range 14, (gainsOf S).getD (k + 1 - 14 + j) 0) / 14)
            ((∑ j in Finset.range 14, (lossesOf S).getD (k + 1 - 14 + j) 0) / 14)))
      else none := by
  rw [calculateRSI, getD_range_map]
  by_cases hk : k < S.length - 1
  · simp only [hk, if_true]
    by_cases h14 : k + 1 < 14
    · simp [h14]
    · simp only [h14, if_false]
      have hg : (gainsOf S).length = S.length - 1 := by simp [gainsOf, priceDiffs]
      have hl : (lossesOf S).length = S.length - 1 := by simp [lossesOf, priceDiffs]
      have hlg : 14 ≤ ((gainsOf S).drop (k + 1 - 14)).length := by
        rw [List.length_drop, hg]; omega
      have hll : 14 ≤ ((lossesOf S).drop (k + 1 - 14)).length := by
        rw [List.length_drop, hl]; omega
      rw [take_sum_eq _ _ hlg, take_sum_eq _ _ hll]
      rw [Finset.sum_congr rfl (fun j _ => getD_drop (gainsOf S) (k + 1 - 14) j 0),
          Finset.sum_congr rfl (fun j _ => getD_drop (lossesOf S) (k + 1 - 14) j 0)]
      norm_num
  · simp [hk]

theorem rsiValue_pos_loss (aG aL : ℚ) (hG : 0 ≤ aG) (hL : 0 < aL) :
    rsiValue aG aL = JSNum.num (100 - 100 / (1 + aG / aL)) := by
  have hq : (0 : ℚ) ≤ aG / aL := div_nonneg hG hL.le
  have h1 : (1 : ℚ) + aG / aL ≠ 0 := by positivity
  rw [rsiValue, jdiv_num _ _ hL.ne', jadd_num, jdiv_num _ _ h1, jsub_num]

theorem rsiValue_zero_loss (aG : ℚ) (hG : 0 < aG) : rsiValue aG 0 = JSNum.num 100 := by
  have h : JSNum.jdiv (JSNum.num aG) (JSNum.num 0) = JSNum.inf true := by
    simp [JSNum.jdiv, hG.ne', hG]
  rw [rsiValue, h]
  show JSNum.jsub (JSNum.num 100) (JSNum.num 0) = JSNum.num 100
  rw [jsub_num]; norm_num

theorem rsiValue_zero_zero : rsiValue 0 0 = JSNum.nan := by
  simp [rsiValue, JSNum.jdiv, JSNum.jadd, JSNum.jsub, JSNum.jneg]

theorem rsiInRange_num (q : ℚ) : rsiInRange (JSNum.num q) = true ↔ (0 ≤ q ∧ q ≤ 100) := by
  simp [rsiInRange]

/-- A price list all of whose members equal `c` reads `c` at every in-range
index. -/
theorem getD_eq_of_constant (S : List ℚ) (c : ℚ) (hc : ∀ p ∈ S, p = c) (m : ℕ)
    (hm : m < S.length) : S.getD m 0 = c := by
  rw [List.getD_eq_getElem?_getD, List.getElem?_eq_getElem hm]
  exact hc _ (List.getElem_mem hm)

/-- **C3, amended.**  Every defined entry of `calculateRSI S 14` whose
trailing 14-difference window contains at least one nonzero day-over-day
change is a finite value in `[0, 100]`; and if `S` is strictly monotonically
increasing, every defined entry equals exactly `100`.  (The original claim is
false: a non-constant series whose window of 14 changes is all zero yields a
`NaN` entry — see the counterexample.) -/
theorem rsi_range_amended (S : List ℚ) (k : ℕ) (hk : k < S.length - 1) (h14 : 14 ≤ k + 1) :
    ∃ v, (calculateRSI S 14).getD k none = some v ∧
      ((∃ j, k + 1 - 14 ≤ j ∧ j < k + 1 ∧ (priceDiffs S).getD j 0 ≠ 0) →
        rsiInRange v = true) ∧
      ((∀ j < S.length - 1, S.getD j 0 < S.getD (j + 1) 0) → v = JSNum.num 100) := by
  rw [calculateRSI_getD, if_pos hk, if_neg (show ¬ k + 1 < 14 by omega)]
  refine ⟨_, rfl, ?_, ?_⟩
  · rintro ⟨j0, hj1, hj2, hj3⟩
    have hGnn : (0:ℚ) ≤ (∑ j in Finset.range 14, (gainsOf S).getD (k + 1 - 14 + j) 0) / 14 :=
      div_nonneg
        (Finset.sum_nonneg fun j _ => by rw [gainsOf_getD]; exact le_max_right _ _)
        (by norm_num)
    have hLnn : (0:ℚ) ≤ (∑ j in Finset.range 14, (lossesOf S).getD (k + 1 - 14 + j) 0) / 14 :=
      div_nonneg
        (Finset.sum_nonneg fun j _ => by rw [lossesOf_getD]; exact le_max_right _ _)
        (by norm_num)
    have hsum : (0:ℚ) <
        (∑ j in Finset.range 14, (gainsOf S).getD (k + 1 - 14 + j) 0) / 14 +
        (∑ j in Finset.range 14, (lossesOf S).getD (k + 1 - 14 + j) 0) / 14 := by
      rw [div_add_div_same]
      apply div_pos ?_ (by norm_num)
      rw [← Finset.sum_add_distrib]
      apply Finset.sum_pos'
      · intro j _
        rw [gainsOf_getD, lossesOf_getD]
        exact add_nonneg (le_max_right _ _) (le_max_right _ _)
      · refine ⟨j0 - (k + 1 - 14), Finset.mem_range.2 (by omega), ?_⟩
        have hidx : k + 1 - 14 + (j0 - (k + 1 - 14)) = j0 := by omega
        rw [hidx, gainsOf_getD, lossesOf_getD]
        rcases lt_or_gt_of_ne hj3 with h | h
        · have h1 : max ((priceDiffs S).getD j0 0) 0 = 0 := max_eq_right h.le
          have h2 : max (-((priceDiffs S).getD j0 0)) 0 = -((priceDiffs S).getD j0 0) :=
            max_eq_left (by linarith)
          rw [h1, h2]; linarith
        · have h1 : max ((priceDiffs S).getD j0 0) 0 = (priceDiffs S).getD j0 0 :=
            max_eq_left h.le
          have h2 : max (-((priceDiffs S).getD j0 0)) 0 = 0 := max_eq_right (by linarith)
          rw [h1, h2]; linarith
    by_cases hL0 : (∑ j in Finset.range 14, (lossesOf S).getD (k + 1 - 14 + j) 0) / 14 = 0
    · have hGpos : (0:ℚ) <
          (∑ j in Finset.range 14, (gainsOf S).getD (k + 1 - 14 + j) 0) / 14 := by
        rw [hL0] at hsum; simpa using hsum
      rw [hL0, rsiValue_zero_loss _ hGpos, rsiInRange_num]
      norm_num
    · have hLpos : (0:ℚ) <
          (∑ j in Finset.range 14, (lossesOf S).getD (k + 1 - 14 + j) 0) / 14 :=
        lt_of_le_of_ne hLnn (Ne.symm hL0)
      rw [rsiValue_pos_loss _ _ hGnn hLpos, rsiInRange_num]
      set q := ((∑ j in Finset.range 14, (gainsOf S).getD (k + 1 - 14 + j) 0) / 14) /
          ((∑ j in Finset.range 14, (lossesOf S).getD (k + 1 - 14 + j) 0) / 14) with hq
      have hqnn : 0 ≤ q := div_nonneg hGnn hLpos.le
      have h1q : (0:ℚ) < 1 + q := by linarith
      have hle : 100 / (1 + q) ≤ 100 := div_le_self (by norm_num) (by linarith)
      have hge : (0:ℚ) ≤ 100 / (1 + q) := div_nonneg (by norm_num) h1q.le
      constructor <;> linarith
  · intro hmono
    have hL0 : (∑ j in Finset.range 14, (lossesOf S).getD (k + 1 - 14 + j) 0) = 0 := by
      apply Finset.sum_eq_zero
      intro j hj
      have hjr : j < 14 := Finset.mem_range.1 hj
      have hin : k + 1 - 14 + j < S.length - 1 := by omega
      rw [lossesOf_getD, priceDiffs_getD, if_pos hin]
      have := hmono (k + 1 - 14 + j) hin
      apply max_eq_right
      linarith
    have hGpos : (0:ℚ) <
        (∑ j in Finset.range 14, (gainsOf S).getD (k + 1 - 14 + j) 0) / 14 := by
      apply div_pos ?_ (by norm_num)
      apply Finset.sum_pos ?_ (by simp)
      intro j hj
      have hjr : j < 14 := Finset.mem_range.1 hj
      have hin : k + 1 - 14 + j < S.length - 1 := by omega
      rw [gainsOf_getD, priceDiffs_getD, if_pos hin]
      have := hmono (k + 1 - 14 + j) hin
      rw [max_eq_left (by linarith)]
      linarith
    rw [hL0, zero_div]
    exact rsiValue_zero_loss _ hGpos

/-- **C3, counterexample.**  `S = 1 :: replicate 15 2` is non-constant and has
a defined RSI entry (index 14, loop day 15) that is `NaN` — not a value in
`[0, 100]` — because its trailing 14 day-over-day changes are all zero. -/
theorem rsi_range_counterexample :
    (((1 : ℚ) :: List.replicate 15 2).getD 0 0 ≠ ((1 : ℚ) :: List.replicate 15 2).getD 1 0) ∧
    (calculateRSI ((1 : ℚ) :: List.replicate 15 2) 14).getD 14 none = some JSNum.nan ∧
    rsiInRange JSNum.nan = false := by
  have hget : ∀ m, 1 ≤ m → m ≤ 15 → ((1 : ℚ) :: List.replicate 15 2).getD m 0 = 2 := by
    intro m h1 h2
    cases m with
    | zero => omega
    | succ m' => rw [List.getD_cons_succ, getD_replicate, if_pos (by omega)]
  have hlen : ((1 : ℚ) :: List.replicate 15 2).length = 16 := by simp
  refine ⟨?_, ?_, rfl⟩
  · rw [List.getD_cons_zero, hget 1 (by norm_num) (by norm_num)]
    norm_num
  · rw [calculateRSI_getD, hlen]
    rw [if_pos (by norm_num), if_neg (by norm_num)]
    have hG : (∑ j in Finset.range 14,
        (gainsOf ((1 : ℚ) :: List.replicate 15 2)).getD (14 + 1 - 14 + j) 0) = 0 := by
      apply Finset.sum_eq_zero
      intro j hj
      have hjr : j < 14 := Finset.mem_range.1 hj
      rw [gainsOf_getD, priceDiffs_getD, hlen, if_pos (by omega)]
      rw [hget (14 + 1 - 14 + j + 1) (by omega) (by omega),
          hget (14 + 1 - 14 + j) (by omega) (by omega)]
      norm_num
    have hL : (∑ j in Finset.range 14,
        (lossesOf ((1 : ℚ) :: List.replicate 15 2)).getD (14 + 1 - 14 + j) 0) = 0 := by
      apply Finset.sum_eq_zero
      intro j hj
      have hjr : j < 14 := Finset.mem_range.1 hj
      rw [lossesOf_getD, priceDiffs_getD, hlen, if_pos (by omega)]
      rw [hget (14 + 1 - 14 + j + 1) (by omega) (by omega),
          hget (14 + 1 - 14 + j) (by omega) (by omega)]
      norm_num
    rw [hG, hL, zero_div, rsiValue_zero_zero]

/-- Witness for C3 (amended) at the strictly increasing series `1..16`,
index 13 (the first defined entry): the entry is a defined value in range
and equals exactly `100`. -/
theorem rsi_range_amended_witness :
    ∃ v, (calculateRSI [1, 2, 3, 4, 5, 6, 7, 8, 9, 10, 11, 12, 13, 14, 15, 16] 14).getD
        13 none = some v ∧ rsiInRange v = true ∧ v = JSNum.num 100 := by
  obtain ⟨v, hv, h1, h2⟩ :=
    rsi_range_amended [1, 2, 3, 4, 5, 6, 7, 8, 9, 10, 11, 12, 13, 14, 15, 16] 13
      (by norm_num) (by norm_num)
  refine ⟨v, hv, h1 ⟨0, by omega, by omega, ?_⟩, h2 ?_⟩
  · rw [priceDiffs_getD]
    norm_num [List.getD_cons_succ, List.getD_cons_zero]
  · intro j hj
    norm_num at hj
    interval_cases j <;>
      norm_num [List.getD_cons_succ, List.getD_cons_zero]

/-- **C6, amended.**  On a constant price series `calculateRSI` does not
crash (the embedding is a total function), but the affected entries are `NaN`
(JavaScript `0/0` propagated through the formula), not a documented
convention value such as `50`: every entry is either the undefined marker or
`NaN`. -/
theorem rsi_constant_amended (S : List ℚ) (c : ℚ) (hc : ∀ p ∈ S, p = c) (k : ℕ) :
    (calculateRSI S 14).getD k none = none ∨
    (calculateRSI S 14).getD k none = some JSNum.nan := by
  rw [calculateRSI_getD]
  by_cases hk : k < S.length - 1
  · rw [if_pos hk]
    by_cases h14 : k + 1 < 14
    · left; rw [if_pos h14]
    · right
      rw [if_neg h14]
      have hdz : ∀ j, (priceDiffs S).getD j 0 = 0 := by
        intro j
        rw [priceDiffs_getD]
        by_cases hj : j < S.length - 1
        · rw [if_pos hj, getD_eq_of_constant S c hc (j + 1) (by omega),
              getD_eq_of_constant S c hc j (by omega)]
          ring
        · rw [if_neg hj]
      have hG : (∑ j in Finset.range 14, (gainsOf S).getD (k + 1 - 14 + j) 0) = 0 :=
        Finset.sum_eq_zero fun j _ => by rw [gainsOf_getD, hdz]; norm_num
      have hL : (∑ j in Finset.range 14, (lossesOf S).getD (k + 1 - 14 + j) 0) = 0 :=
        Finset.sum_eq_zero fun j _ => by rw [lossesOf_getD, hdz]; norm_num
      rw [hG, hL, zero_div, rsiValue_zero_zero]
  · left; rw [if_neg hk]

/-- **C6, counterexample.**  At the constant series `replicate 16 5` the
first defined RSI entry is `NaN` — not `50`, not the undefined marker, and
not any in-range value: the `RS = 0/0` case is not resolved to a documented
convention. -/
theorem rsi_constant_counterexample :
    (calculateRSI (List.replicate 16 (5 : ℚ)) 14).getD 13 none = some JSNum.nan ∧
    rsiInRange JSNum.nan = false := by
  refine ⟨?_, rfl⟩
  have hlen : (List.replicate 16 (5 : ℚ)).length = 16 := by simp
  rw [calculateRSI_getD, hlen, if_pos (by norm_num), if_neg (by norm_num)]
  have hdz : ∀ j, (priceDiffs (List.replicate 16 (5 : ℚ))).getD j 0 = 0 := by
    intro j
    rw [priceDiffs_getD, hlen]
    by_cases hj : j < 16 - 1
    · rw [if_pos hj, getD_replicate, getD_replicate, if_pos (by omega), if_pos (by omega)]
      ring
    · rw [if_neg hj]
  have hG : (∑ j in Finset.range 14,
      (gainsOf (List.replicate 16 (5 : ℚ))).getD (13 + 1 - 14 + j) 0) = 0 :=
    Finset.sum_eq_zero fun j _ => by rw [gainsOf_getD, hdz]; norm_num
  have hL : (∑ j in Finset.range 14,
      (lossesOf (List.replicate 16 (5 : ℚ))).getD (13 + 1 - 14 + j) 0) = 0 :=
    Finset.sum_eq_zero fun j _ => by rw [lossesOf_getD, hdz]; norm_num
  rw [hG, hL, zero_div, rsiValue_zero_zero]

/-- Witness for C6 (amended) at `replicate 20 7`, index 15. -/
theorem rsi_constant_amended_witness :
    (calculateRSI (List.replicate 20 (7 : ℚ)) 14).getD 15 none = none ∨
    (calculateRSI (List.replicate 20 (7 : ℚ)) 14).getD 15 none = some JSNum.nan :=
  rsi_constant_amended _ 7 (fun _ hp => List.eq_of_mem_replicate hp) 15

/-- **C2, counterexample.**  `calculateCovarianceMatrix` does not fail with
`InsufficientDataError` (no such error exists in the code): on the empty
matrix it returns `[]`, and on a 1-day matrix it returns a matrix of `NaN`
(`0 / 0`), in both cases returning normally. -/
theorem covariance_error_counterexample :
    calculateCovarianceMatrix ([] : List (List ℚ)) = [] ∧
    calculateCovarianceMatrix [[(1 : ℚ)]] = [[JSNum.nan]] := by
  constructor
  · rw [calculateCovarianceMatrix, if_pos (by simp)]
  · rw [calculateCovarianceMatrix, if_neg (by simp)]
    have hc : covSumProduct [[(1 : ℚ)]] 0 0 = 0 := by
      simp [covSumProduct, colMean, matGet]
    rw [show List.range ([[(1 : ℚ)]].getD 0 []).length = [0] from rfl]
    simp only [List.map_cons, List.map_nil, hc]
    norm_num [JSNum.jdiv]

/-- **C2, amended.**  `calculateCovarianceMatrix` never raises: when the
matrix is empty (or its first row is) it returns the empty matrix `[]`, and
when `N = 1 < 2` every entry of the result is `NaN` (the `0 / 0` of the
`N - 1` denominator) — a sentinel value, not an exception. -/
theorem covariance_no_error (row : List ℚ) (hrow : row ≠ []) :
    calculateCovarianceMatrix ([] : List (List ℚ)) = [] ∧
    calculateCovarianceMatrix [row] =
      (List.range row.length).map (fun _ =>
        (List.range row.length).map (fun _ => JSNum.nan)) := by
  constructor
  · rw [calculateCovarianceMatrix, if_pos (by simp)]
  · have hlen : ¬ ([row].length = 0 ∨ ([row].getD 0 []).length = 0) := by
      push_neg
      refine ⟨by simp, ?_⟩
      simp [List.length_eq_zero]
      exact hrow
    rw [calculateCovarianceMatrix, if_neg hlen]
    have hc : ∀ i j, covSumProduct [row] i j = 0 := by
      intro i j
      simp [covSumProduct, colMean, matGet]
    have hone : (([row] : List (List ℚ)).length : ℚ) - 1 = 0 := by simp
    refine List.map_congr_left (fun i _ => ?_)
    refine List.map_congr_left (fun j _ => ?_)
    rw [hc i j, hone]
    simp [JSNum.jdiv]

/-- Witness for C2 at the one-day, one-asset matrix `[[2]]`. -/
theorem covariance_no_error_witness :
    calculateCovarianceMatrix ([] : List (List ℚ)) = [] ∧
    calculateCovarianceMatrix [[(2 : ℚ)]] =
      (List.range [(2 : ℚ)].length).map (fun _ =>
        (List.range [(2 : ℚ)].length).map (fun _ => JSNum.nan)) :=
  covariance_no_error [2] (by simp)

/-- `getD` through `zipWith`, both indices in range. -/
theorem getD_zipWith {α β γ : Type*} (f : α → β → γ) (l1 : List α) (l2 : List β) (i : ℕ)
    (h1 : i < l1.length) (h2 : i < l2.length) (d1 : α) (d2 : β) (d : γ) :
    (List.zipWith f l1 l2).getD i d = f (l1.getD i d1) (l2.getD i d2) := by
  induction l1 generalizing l2 i with
  | nil => simp at h1
  | cons x xs ih =>
    cases l2 with
    | nil => simp at h2
    | cons y ys =>
      cases i with
      | zero => simp
      | succ i' =>
        simp only [List.zipWith_cons_cons, List.getD_cons_succ]
        exact ih ys i' (by simpa using h1) (by simpa using h2)

theorem calculateEMA_length (prices : List ℚ) (period : ℕ) (hp : 1 ≤ period) :
    (calculateEMA prices period).length = prices.length := by
  rw [calculateEMA]
  by_cases h : prices.length < period
  · simp [h]
  · rw [if_neg h]
    rw [List.length_append, List.length_replicate, List.length_map, List.length_scanl,
      List.length_drop]
    omega

/-- The macd-line entry at an in-range index, as the JavaScript truthiness
test over the two EMA values. -/
theorem calculateMACD_fst_getD (prices : List ℚ) (i : ℕ) (hi : i < prices.length) :
    (calculateMACD prices).1.getD i none =
      (match (calculateEMA prices 12).getD i none, (calculateEMA prices 26).getD i none with
       | some a, some b => if a = 0 ∨ b = 0 then none else some (a - b)
       | _, _ => none) := by
  have h12 : i < (calculateEMA prices 12).length := by
    rw [calculateEMA_length prices 12 (by norm_num)]; exact hi
  have h26 : i < (calculateEMA prices 26).length := by
    rw [calculateEMA_length prices 26 (by norm_num)]; exact hi
  exact getD_zipWith _ _ _ i h12 h26 none none none

/-- **C4, amended.**  The macd line is `EMA12[i] - EMA26[i]` only when both
EMA values are defined **and nonzero**; it is the undefined marker when either
EMA value is `null` *or equal to `0`* (JavaScript `!fast || !ema26[i]` treats
`0` as falsy).  The signal line is exactly the 9-period EMA of the macd line
with its undefined entries removed. -/
theorem macd_line_amended (prices : List ℚ) :
    (∀ i a b, (calculateEMA prices 12).getD i none = some a →
        (calculateEMA prices 26).getD i none = some b → a ≠ 0 → b ≠ 0 →
        (calculateMACD prices).1.getD i none = some (a - b)) ∧
    (∀ i, i < prices.length →
        ((calculateEMA prices 12).getD i none = none ∨
         (calculateEMA prices 26).getD i none = none ∨
         (calculateEMA prices 12).getD i none = some 0 ∨
         (calculateEMA prices 26).getD i none = some 0) →
        (calculateMACD prices).1.getD i none = none) ∧
    (calculateMACD prices).2 = calculateEMA ((calculateMACD prices).1.filterMap id) 9 := by
  refine ⟨?_, ?_, rfl⟩
  · intro i a b ha hb hane hbne
    have hi : i < prices.length := by
      by_contra hlt
      have : (calculateEMA prices 12).length ≤ i := by
        rw [calculateEMA_length prices 12 (by norm_num)]; omega
      rw [List.getD_eq_getElem?_getD, List.getElem?_eq_none this] at ha
      simp at ha
    rw [calculateMACD_fst_getD prices i hi, ha, hb]
    simp [hane, hbne]
  · intro i hi hdisj
    rw [calculateMACD_fst_getD prices i hi]
    rcases h12v : (calculateEMA prices 12).getD i none with _ | a <;>
      rcases h26v : (calculateEMA prices 26).getD i none with _ | b <;>
      simp_all <;> tauto

set_option maxRecDepth 4000 in
/-- **C4, counterexample.**  At the all-zero price series of length 26 both
EMAs are defined at index 25 (both equal to `0`), yet the macd line holds the
undefined marker there instead of `0 - 0 = 0`: JavaScript's `!fast` treats
the defined value `0` as falsy. -/
theorem macd_line_counterexample :
    (calculateEMA (List.replicate 26 (0 : ℚ)) 12).getD 25 none = some 0 ∧
    (calculateEMA (List.replicate 26 (0 : ℚ)) 26).getD 25 none = some 0 ∧
    (calculateMACD (List.replicate 26 (0 : ℚ))).1.getD 25 (some 1) = none := by
  have h12 : (calculateEMA (List.replicate 26 (0 : ℚ)) 12).getD 25 none = some 0 := by
    norm_num [calculateEMA, List.replicate_succ, List.scanl, List.getD]
  have h26 : (calculateEMA (List.replicate 26 (0 : ℚ)) 26).getD 25 none = some 0 := by
    norm_num [calculateEMA, List.replicate_succ, List.scanl, List.getD]
  refine ⟨h12, h26, ?_⟩
  have hl12 : 25 < (calculateEMA (List.replicate 26 (0 : ℚ)) 12).length := by
    rw [calculateEMA_length _ _ (by norm_num)]; norm_num
  have hl26 : 25 < (calculateEMA (List.replicate 26 (0 : ℚ)) 26).length := by
    rw [calculateEMA_length _ _ (by norm_num)]; norm_num
  rw [show (calculateMACD (List.replicate 26 (0 : ℚ))).1 = List.zipWith
      (fun fast slow => match fast, slow with
        | some a, some b => if a = 0 ∨ b = 0 then none else some (a - b)
        | _, _ => none)
      (calculateEMA (List.replicate 26 (0 : ℚ)) 12)
      (calculateEMA (List.replicate 26 (0 : ℚ)) 26) from rfl]
  rw [getD_zipWith _ _ _ 25 hl12 hl26 none none (some 1), h12, h26]
  simp

set_option maxRecDepth 4000 in
/-- Witness for C4 (amended) at the constant series of 26 ones: both EMA
values at index 25 are the nonzero `1`, the macd entry is `some (1 - 1)`, and
the signal line is the 9-EMA of the compacted macd line. -/
theorem macd_line_amended_witness :
    (calculateMACD (List.replicate 26 (1 : ℚ))).1.getD 25 none = some 0 ∧
    (calculateMACD (List.replicate 26 (1 : ℚ))).2 =
      calculateEMA ((calculateMACD (List.replicate 26 (1 : ℚ))).1.filterMap id) 9 := by
  have h := macd_line_amended (List.replicate 26 (1 : ℚ))
  have h12 : (calculateEMA (List.replicate 26 (1 : ℚ)) 12).getD 25 none = some 1 := by
    norm_num [calculateEMA, List.replicate_succ, List.scanl, List.getD]
  have h26 : (calculateEMA (List.replicate 26 (1 : ℚ)) 26).getD 25 none = some 1 := by
    norm_num [calculateEMA, List.replicate_succ, List.scanl, List.getD]
  have hmain := h.1 25 1 1 h12 h26 one_ne_zero one_ne_zero
  refine ⟨?_, h.2.2⟩
  rw [hmain]
  norm_num

/-- **C8.**  Weight vectors produced by the shared sampler (normalising `K`
uniform `(0,1)` draws by their sum) have every entry nonnegative and sum to
exactly `1` — in particular within `1e-9` of `1` — for every `K ≥ 1` and
every draw from the open unit interval. -/
theorem normalizeWeights_spec (draws : List ℚ) (hne : draws ≠ [])
    (hd : ∀ x ∈ draws, 0 < x ∧ x < 1) :
    (∀ w ∈ normalizeWeights draws, 0 ≤ w) ∧
    (normalizeWeights draws).sum = 1 ∧
    |(normalizeWeights draws).sum - 1| ≤ 1 / 1000000000 := by
  have hpos : 0 < draws.sum := List.sum_pos draws (fun x hx => (hd x hx).1) hne
  have hdivsum : ∀ (l : List ℚ), (l.map (fun x => x / draws.sum)).sum = l.sum / draws.sum := by
    intro l
    induction l with
    | nil => simp
    | cons x xs ih => simp [ih, add_div]
  have hsum1 : (normalizeWeights draws).sum = 1 := by
    rw [normalizeWeights, hdivsum, div_self hpos.ne']
  refine ⟨?_, hsum1, by rw [hsum1]; norm_num⟩
  intro w hw
  obtain ⟨x, hx, rfl⟩ := List.mem_map.1 hw
  exact div_nonneg (hd x hx).1.le hpos.le

/-- Witness for C8 at the two draws `[1/2, 1/3]`. -/
theorem normalizeWeights_spec_witness :
    (∀ w ∈ normalizeWeights [(1 : ℚ)/2, 1/3], 0 ≤ w) ∧
    (normalizeWeights [(1 : ℚ)/2, 1/3]).sum = 1 ∧
    |(normalizeWeights [(1 : ℚ)/2, 1/3]).sum - 1| ≤ 1 / 1000000000 :=
  normalizeWeights_spec [(1 : ℚ)/2, 1/3] (by simp) (by norm_num)

/-- The fold of `findMaxSharpeRatio` keeps the accumulator unless a strictly
greater Sharpe ratio appears, and on a strict improvement it lands on the
earliest maximal element of the list. -/
theorem foldl_maxSharpe_spec (l : List FrontierPoint) (acc : FrontierPoint) :
    (l.foldl maxSharpeStep acc = acc ∧ ∀ p ∈ l, p.sharpe ≤ acc.sharpe) ∨
    (∃ pre m suf, l = pre ++ m :: suf ∧ l.foldl maxSharpeStep acc = m ∧
      acc.sharpe < m.sharpe ∧ (∀ p ∈ l, p.sharpe ≤ m.sharpe) ∧
      (∀ p ∈ pre, p.sharpe < m.sharpe)) := by
  induction l generalizing acc with
  | nil => left; exact ⟨rfl, by simp⟩
  | cons p t ih =>
    rw [List.foldl_cons]
    by_cases hcmp : p.sharpe > acc.sharpe
    · rw [show maxSharpeStep acc p = p from if_pos hcmp]
      rcases ih p with ⟨hres, hall⟩ | ⟨pre, m, suf, ht, hres, hlt, hall, hpre⟩
      · right
        refine ⟨[], p, t, rfl, hres, hcmp, ?_, by simp⟩
        intro q hq
        rcases List.mem_cons.1 hq with rfl | hq'
        · exact le_refl _
        · exact hall q hq'
      · right
        refine ⟨p :: pre, m, suf, by rw [ht, List.cons_append], hres, lt_trans hcmp hlt, ?_, ?_⟩
        · intro q hq
          rcases List.mem_cons.1 hq with rfl | hq'
          · exact hlt.le
          · exact hall q hq'
        · intro q hq
          rcases List.mem_cons.1 hq with rfl | hq'
          · exact hlt
          · exact hpre q hq'
    · have hle : p.sharpe ≤ acc.sharpe := le_of_not_lt hcmp
      rw [show maxSharpeStep acc p = acc from if_neg hcmp]
      rcases ih acc with ⟨hres, hall⟩ | ⟨pre, m, suf, ht, hres, hlt, hall, hpre⟩
      · left
        refine ⟨hres, ?_⟩
        intro q hq
        rcases List.mem_cons.1 hq with rfl | hq'
        · exact hle
        · exact hall q hq'
      · right
        refine ⟨p :: pre, m, suf, by rw [ht, List.cons_append], hres, hlt, ?_, ?_⟩
        · intro q hq
          rcases List.mem_cons.1 hq with rfl | hq'
          · exact le_trans hle hlt.le
          · exact hall q hq'
        · intro q hq
          rcases List.mem_cons.1 hq with rfl | hq'
          · exact lt_of_le_of_lt hle hlt
          · exact hpre q hq'

/-- **C9.**  With no assets selected `generateEfficientFrontier` returns the
empty collection; `findMaxSharpeRatio` on the empty collection returns the
defined non-result `none` (not an exception — the embedding is total); and on
a nonempty collection it returns a point of maximal Sharpe ratio, keeping the
earliest-seen point on ties: every point strictly before the returned one in
the list has strictly smaller Sharpe ratio (the fold uses `>`, not `≥`). -/
theorem frontier_empty_max (rand : ℕ → List ℚ) (ps : List FrontierPoint)
    (hne : ps ≠ []) :
    generateEfficientFrontier [] rand = [] ∧
    findMaxSharpeRatio [] = none ∧
    ∃ pre m suf, ps = pre ++ m :: suf ∧ findMaxSharpeRatio ps = some m ∧
      (∀ p ∈ ps, p.sharpe ≤ m.sharpe) ∧ (∀ p ∈ pre, p.sharpe < m.sharpe) := by
  refine ⟨by rw [generateEfficientFrontier, if_pos List.length_nil], rfl, ?_⟩
  match ps, hne with
  | p0 :: rest, _ =>
    rcases foldl_maxSharpe_spec (p0 :: rest) p0 with ⟨hres, hall⟩ |
      ⟨pre, m, suf, heq, hres, _, hall, hpre⟩
    · exact ⟨[], p0, rest, rfl, by rw [findMaxSharpeRatio, hres], hall, by simp⟩
    · exact ⟨pre, m, suf, heq, by rw [findMaxSharpeRatio, hres], hall, hpre⟩

/-- Witness for C9 at the one-point collection `[⟨0, 0, 0, []⟩]`. -/
theorem frontier_empty_max_witness :
    generateEfficientFrontier [] (fun _ => []) = [] ∧
    findMaxSharpeRatio [] = none ∧
    ∃ pre m suf, [(⟨0, 0, 0, []⟩ : FrontierPoint)] = pre ++ m :: suf ∧
      findMaxSharpeRatio [(⟨0, 0, 0, []⟩ : FrontierPoint)] = some m ∧
      (∀ p ∈ [(⟨0, 0, 0, []⟩ : FrontierPoint)], p.sharpe ≤ m.sharpe) ∧
      (∀ p ∈ pre, p.sharpe < m.sharpe) :=
  frontier_empty_max (fun _ => []) [⟨0, 0, 0, []⟩] (by simp)

/-- `getD` through a map at an in-range index. -/
theorem getD_map_in {α β : Type*} (l : List α) (f : α → β) (k : ℕ) (hk : k < l.length)
    (d : β) (e : α) : (l.map f).getD k d = f (l.getD k e) := by
  rw [List.getD_eq_getElem?_getD, List.getElem?_map, List.getElem?_eq_getElem hk]
  rw [List.getD_eq_getElem?_getD, List.getElem?_eq_getElem hk]
  simp

/-- A list's sum as an indexed sum over its positions. -/
theorem sum_eq_sum_getD (l : List ℚ) :
    l.sum = ∑ k in Finset.range l.length, l.getD k 0 := by
  conv_lhs => rw [← List.take_length l]
  exact take_sum_eq l l.length le_rfl

/-- An in-range `getD` is a member of the list. -/
theorem getD_mem_of_lt {α : Type*} (l : List α) (k : ℕ) (hk : k < l.length) (d : α) :
    l.getD k d ∈ l := by
  rw [List.getD_eq_getElem?_getD, List.getElem?_eq_getElem hk]
  exact List.getElem_mem hk

theorem pmDailyReturns_length (w : List ℚ) (R : List (List ℚ)) :
    (pmDailyReturns w R).length = R.length := by
  simp [pmDailyReturns]

theorem pmDailyReturns_getD (w : List ℚ) (R : List (List ℚ))
    (hrows : ∀ row ∈ R, row.length = w.length) (k : ℕ) (hk : k < R.length) :
    (pmDailyReturns w R).getD k 0 =
      ∑ i in Finset.range w.length, matGet R k i * w.getD i 0 := by
  rw [pmDailyReturns, getD_map_in R _ k hk 0 []]
  rw [hrows _ (getD_mem_of_lt R k hk [])]
  simp [matGet]

/-- The weighted column means equal the mean of the per-day portfolio
returns (linearity of the mean). -/
theorem pm_weighted_colMean (w : List ℚ) (R : List (List ℚ))
    (hrows : ∀ row ∈ R, row.length = w.length) :
    ∑ j in Finset.range w.length, w.getD j 0 * colMean R j = pmMeanReturn w R := by
  rw [pmMeanReturn, pmDailyReturns_length, sum_eq_sum_getD, pmDailyReturns_length]
  rw [Finset.sum_congr rfl
    (fun k hk => pmDailyReturns_getD w R hrows k (Finset.mem_range.1 hk))]
  simp only [colMean]
  have h1 : ∀ j, w.getD j 0 * ((∑ k in Finset.range R.length, matGet R k j) / (R.length : ℚ)) =
      (∑ k in Finset.range R.length, w.getD j 0 * matGet R k j) / (R.length : ℚ) := by
    intro j
    rw [← mul_div_assoc, Finset.mul_sum]
  rw [Finset.sum_congr rfl (fun j _ => h1 j), ← Finset.sum_div]
  congr 1
  rw [Finset.sum_comm]
  exact Finset.sum_congr rfl fun k _ => Finset.sum_congr rfl fun j _ => mul_comm _ _

/-- For `N ≥ 2` days the covariance matrix entries are the exact rationals
`sumProduct / (N - 1)`. -/
theorem covToQ_get (R : List (List ℚ)) (K : ℕ) (hrow0 : (R.getD 0 []).length = K)
    (hK : 0 < K) (hN : 2 ≤ R.length) (i j : ℕ) (hi : i < K) (hj : j < K) :
    matGet (covToQ R) i j = covSumProduct R i j / ((R.length : ℚ) - 1) := by
  have hN1 : ((R.length : ℚ)) - 1 ≠ 0 := by
    have h2 : (2 : ℚ) ≤ (R.length : ℚ) := by exact_mod_cast hN
    linarith
  have hguard : ¬ (R.length = 0 ∨ (R.getD 0 []).length = 0) := by
    push_neg
    exact ⟨by omega, by omega⟩
  rw [covToQ, calculateCovarianceMatrix, if_neg hguard, hrow0, List.map_map, matGet]
  rw [getD_range_map, if_pos hi]
  simp only [Function.comp_def, List.map_map]
  rw [getD_range_map, if_pos hj]
  rw [jdiv_num _ _ hN1]
  rfl

/-- **C10.**  For the same weight vector `w` and the same day-by-asset return
matrix `R` with `N ≥ 2` days: the Monte Carlo trial's expected annual return
`Σ_j w[j] * meanDailyReturn[j] * 252` equals `calculatePortfolioMetrics`'
annualized return exactly; the trial's quadratic-form variance (with the
Bessel-corrected `N - 1` covariance) equals `N / (N - 1)` times the
population variance of `calculatePortfolioMetrics`; hence the trial's
volatility `sqrt(wᵀ·Cov·w · 252)` equals `sqrt(N / (N - 1))` times
`calculatePortfolioMetrics`' volatility — a systematic factor above `1`. -/
theorem mc_vs_pm_metrics (w : List ℚ) (R : List (List ℚ)) (hK : w ≠ [])
    (hN : 2 ≤ R.length) (hrows : ∀ row ∈ R, row.length = w.length) :
    mcTrialReturn w ((List.range w.length).map (colMean R)) = pmAnnualizedReturn w R ∧
    mcTrialVariance w (covToQ R) =
      ((R.length : ℚ) / ((R.length : ℚ) - 1)) * pmVariance w R ∧
    Real.sqrt ((mcTrialVariance w (covToQ R) : ℝ) * 252) =
      Real.sqrt ((R.length : ℝ) / ((R.length : ℝ) - 1)) * pmVolatility w R := by
  have hN0 : ((R.length : ℚ)) ≠ 0 := by
    have : (0 : ℚ) < (R.length : ℚ) := by exact_mod_cast (by omega : 0 < R.length)
    exact this.ne'
  have hN1 : ((R.length : ℚ)) - 1 ≠ 0 := by
    have h2 : (2 : ℚ) ≤ (R.length : ℚ) := by exact_mod_cast hN
    linarith
  have hKpos : 0 < w.length := List.length_pos.2 hK
  have hrow0 : (R.getD 0 []).length = w.length :=
    hrows _ (getD_mem_of_lt R 0 (by omega) [])
  -- (a) expected annual return
  have ha : mcTrialReturn w ((List.range w.length).map (colMean R)) =
      pmAnnualizedReturn w R := by
    rw [mcTrialReturn, pmAnnualizedReturn, ← pm_weighted_colMean w R hrows,
      Finset.sum_mul]
    refine Finset.sum_congr rfl fun j hj => ?_
    rw [getD_range_map, if_pos (Finset.mem_range.1 hj)]
  -- deviations
  have hdev : ∀ k < R.length,
      ∑ j in Finset.range w.length, w.getD j 0 * (matGet R k j - colMean R j) =
        (pmDailyReturns w R).getD k 0 - pmMeanReturn w R := by
    intro k hk
    simp only [mul_sub]
    rw [Finset.sum_sub_distrib, pm_weighted_colMean w R hrows,
      pmDailyReturns_getD w R hrows k hk]
    congr 1
    exact Finset.sum_congr rfl fun j _ => mul_comm _ _
  -- population variance as an indexed sum
  have hvar : pmVariance w R =
      (∑ k in Finset.range R.length,
        ((pmDailyReturns w R).getD k 0 - pmMeanReturn w R) ^ 2) / (R.length : ℚ) := by
    rw [pmVariance, pmDailyReturns_length, sum_eq_sum_getD, List.length_map,
      pmDailyReturns_length]
    congr 1
    refine Finset.sum_congr rfl fun k hk => ?_
    exact getD_map_in _ _ k
      (by rw [pmDailyReturns_length]; exact Finset.mem_range.1 hk) 0 0
  -- the quadratic form over the raw sum-products
  have hQ : ∑ r in Finset.range w.length, ∑ c in Finset.range w.length,
      w.getD r 0 * w.getD c 0 * covSumProduct R r c =
      ∑ k in Finset.range R.length,
        ((pmDailyReturns w R).getD k 0 - pmMeanReturn w R) ^ 2 := by
    have h1 : ∀ r c, w.getD r 0 * w.getD c 0 * covSumProduct R r c =
        ∑ k in Finset.range R.length,
          (w.getD r 0 * (matGet R k r - colMean R r)) *
          (w.getD c 0 * (matGet R k c - colMean R c)) := by
      intro r c
      rw [covSumProduct, Finset.mul_sum]
      exact Finset.sum_congr rfl fun k _ => by ring
    rw [Finset.sum_congr rfl (fun r _ => Finset.sum_congr rfl (fun c _ => h1 r c))]
    rw [Finset.sum_congr rfl (fun r (_ : r ∈ Finset.range w.length) =>
      Finset.sum_comm (s := Finset.range w.length) (t := Finset.range R.length))]
    rw [Finset.sum_comm]
    refine Finset.sum_congr rfl fun k hk => ?_
    rw [← Finset.sum_mul_sum]
    rw [hdev k (Finset.mem_range.1 hk)]
    ring
  -- (b) variance ratio
  have hb : mcTrialVariance w (covToQ R) =
      ((R.length : ℚ) / ((R.length : ℚ) - 1)) * pmVariance w R := by
    have h2 : ∀ r ∈ Finset.range w.length, ∀ c ∈ Finset.range w.length,
        w.getD r 0 * w.getD c 0 * matGet (covToQ R) r c =
        (w.getD r 0 * w.getD c 0 * covSumProduct R r c) / ((R.length : ℚ) - 1) := by
      intro r hr c hc
      rw [covToQ_get R w.length hrow0 hKpos hN r c
        (Finset.mem_range.1 hr) (Finset.mem_range.1 hc), mul_div_assoc]
    rw [mcTrialVariance]
    rw [Finset.sum_congr rfl (fun r hr => Finset.sum_congr rfl (fun c hc => h2 r hr c hc))]
    rw [Finset.sum_congr rfl (fun r (_ : r ∈ Finset.range w.length) =>
      (Finset.sum_div _ _ _).symm)]
    rw [← Finset.sum_div, hQ, hvar]
    field_simp
    ring
  refine ⟨ha, hb, ?_⟩
  -- (c) volatility ratio
  have hcast : ((mcTrialVariance w (covToQ R) : ℝ)) * 252 =
      ((R.length : ℝ) / ((R.length : ℝ) - 1)) * ((pmVariance w R : ℝ) * 252) := by
    rw [hb]
    push_cast
    ring
  have hfac : (0 : ℝ) ≤ (R.length : ℝ) / ((R.length : ℝ) - 1) := by
    have h2 : (2 : ℝ) ≤ (R.length : ℝ) := by exact_mod_cast hN
    apply div_nonneg <;> linarith
  rw [pmVolatility, hcast, Real.sqrt_mul hfac]

/-- Witness for C10 at `w = [1]`, `R = [[1], [3]]` (one asset, two days). -/
theorem mc_vs_pm_metrics_witness :
    mcTrialReturn [1] ((List.range ([(1 : ℚ)] : List ℚ).length).map (colMean [[(1 : ℚ)], [3]])) =
      pmAnnualizedReturn [1] [[(1 : ℚ)], [3]] ∧
    mcTrialVariance [1] (covToQ [[(1 : ℚ)], [3]]) =
      ((([[(1 : ℚ)], [3]] : List (List ℚ)).length : ℚ) /
        ((([[(1 : ℚ)], [3]] : List (List ℚ)).length : ℚ) - 1)) *
        pmVariance [1] [[(1 : ℚ)], [3]] ∧
    Real.sqrt ((mcTrialVariance [1] (covToQ [[(1 : ℚ)], [3]]) : ℝ) * 252) =
      Real.sqrt ((([[(1 : ℚ)], [3]] : List (List ℚ)).length : ℝ) /
        ((([[(1 : ℚ)], [3]] : List (List ℚ)).length : ℝ) - 1)) *
        pmVolatility [1] [[(1 : ℚ)], [3]] :=
  mc_vs_pm_metrics [1] [[1], [3]] (by simp) (by norm_num)
    (by
      intro row hrow
      rcases List.mem_cons.1 hrow with rfl | hrow'
      · rfl
      · rcases List.mem_cons.1 hrow' with rfl | h
        · rfl
        · simp at h)
